import Mathlib

set_option linter.unusedSectionVars false

/-!
# Verification of the Spatial Transformer Network notebook

Shallow embedding of `spatial_transformer_network_guide.ipynb` (class `Net`:
localization stack, affine regressor `fc_loc`, `stn` with grid generation and
bilinear sampling, classifier backbone, `log_softmax`), together with proofs
of the specified properties.

Tensors are embedded as `Fin`-indexed functions over a linear ordered field.
The grid generator (`F.affine_grid`) and the bilinear sampler
(`F.grid_sample`) are library operations whose code is not part of the
repository; they are modelled from the specification (§4.1, §4.2): normalized
coordinates with corners at ±1, homogeneous affine mapping, linear rescale to
pixel space, four-neighbour area-weighted bilinear interpolation with
zero padding outside the source image.
-/

namespace STN

variable {α : Type} [LinearOrderedField α] [FloorRing α]

/-! ## Grid generator and bilinear sampler (spec §4.1, §4.2) -/

/-- Modelled from the spec (§4.1, `F.affine_grid` is not in the repository):
normalized coordinate of index `idx` along an axis of `size` pixels, in
`[-1, 1]` with corners mapping to ±1 (`idx = 0 ↦ -1`, `idx = size-1 ↦ 1`). -/
def normCoord (idx size : ℕ) : α :=
  -1 + 2 * (idx : α) / ((size : α) - 1)

/-- Modelled from the spec (§4.2): linear rescale of a normalized coordinate
`t ∈ [-1,1]` back to pixel space `[0, size-1]`: `px = (t+1)/2 * (size-1)`. -/
def pixCoord (t : α) (size : ℕ) : α :=
  (t + 1) / 2 * ((size : α) - 1)

/-- Modelled from the spec (§4.1): the base grid of homogeneous normalized
coordinates `(x, y, 1)`, one row per output pixel in row-major order
(pixel `p = i * W + j`), as built before the batched matrix product. -/
def baseGrid (H W : ℕ) (p : Fin (H * W)) : Fin 3 → α :=
  ![normCoord ((p : ℕ) % W) W, normCoord ((p : ℕ) / W) H, 1]

/-- Modelled from the spec (§4.1): the grid generator. For a batch of `N`
affine `2 × 3` matrices `theta` and output spatial size `H × W`, produce for
every output pixel the source coordinate `theta · (x, y, 1)`, computed as the
batched product of the base grid with `theta` transposed. Output layout is
`(N, H, W, 2)`, the last axis holding `(x', y')`. -/
def affineGrid {N : ℕ} (theta : Fin N → Matrix (Fin 2) (Fin 3) α)
    (H W : ℕ) (b : Fin N) (i : Fin H) (j : Fin W) (d : Fin 2) : α :=
  ∑ k : Fin 3,
    baseGrid H W
      ⟨(i : ℕ) * W + (j : ℕ),
        lt_of_lt_of_le (Nat.add_lt_add_left j.isLt _)
          (le_of_eq_of_le (Nat.succ_mul (i : ℕ) W).symm
            (Nat.mul_le_mul_right W i.isLt))⟩ k * theta b d k

/-- Modelled from the spec (§4.2): fetch a source pixel with the zero-padding
border policy: integer coordinates outside `[0,H) × [0,W)` contribute `0`. -/
def padGet {N C H W : ℕ} (x : Fin N → Fin C → Fin H → Fin W → α)
    (b : Fin N) (c : Fin C) (iy ix : ℤ) : α :=
  if hy : 0 ≤ iy ∧ iy < (H : ℤ) then
    if hx : 0 ≤ ix ∧ ix < (W : ℤ) then
      x b c ⟨iy.toNat, by omega⟩ ⟨ix.toNat, by omega⟩
    else 0
  else 0

/-- Modelled from the spec (§4.2, `F.grid_sample` is not in the repository):
the bilinear sampler. Each output value interpolates the source image at the
rescaled pixel coordinate `(px, py)` of its grid entry, summing the four
integer neighbours weighted by the area-weighting bilinear coefficients, with
out-of-bounds fetches contributing zero. -/
def gridSample {N C Hin Win Hout Wout : ℕ}
    (x : Fin N → Fin C → Fin Hin → Fin Win → α)
    (grid : Fin N → Fin Hout → Fin Wout → Fin 2 → α)
    (b : Fin N) (c : Fin C) (i : Fin Hout) (j : Fin Wout) : α :=
  let px : α := pixCoord (grid b i j 0) Win
  let py : α := pixCoord (grid b i j 1) Hin
  let x0 : ℤ := ⌊px⌋
  let y0 : ℤ := ⌊py⌋
  let wx : α := px - (x0 : α)
  let wy : α := py - (y0 : α)
  (1 - wx) * (1 - wy) * padGet x b c y0 x0 +
  wx * (1 - wy) * padGet x b c y0 (x0 + 1) +
  (1 - wx) * wy * padGet x b c (y0 + 1) x0 +
  wx * wy * padGet x b c (y0 + 1) (x0 + 1)

/-- The identity affine matrix `[[1,0,0],[0,1,0]]` (`Net.__init__` bias of the
last `fc_loc` layer, reshaped to `2 × 3`). -/
def idTheta : Matrix (Fin 2) (Fin 3) α :=
  !![1, 0, 0; 0, 1, 0]

/-- The bilinear interpolation exactly as the spec words it (§4.2, stated for
comparison with `gridSample`): the four integer-pixel neighbours are the
floor/ceil in each axis, each weighted by its area-weighting coefficient
built from the fractional distances. -/
def bilinearSpec {N C H W : ℕ} (x : Fin N → Fin C → Fin H → Fin W → α)
    (b : Fin N) (c : Fin C) (px py : α) : α :=
  (1 - Int.fract px) * (1 - Int.fract py) * padGet x b c ⌊py⌋ ⌊px⌋ +
  Int.fract px * (1 - Int.fract py) * padGet x b c ⌊py⌋ ⌈px⌉ +
  (1 - Int.fract px) * Int.fract py * padGet x b c ⌈py⌉ ⌊px⌋ +
  Int.fract px * Int.fract py * padGet x b c ⌈py⌉ ⌈px⌉

/-! ## Shape contract of the grid generator / sampler boundary (spec §7)

Modelled from the spec (§4.1, §7): the shape validation performed at the
boundary of the grid generator (the tensors' shapes are value-level lists
here; the only intrinsic error is `ShapeMismatch`). -/

/-- The single intrinsic error of the core (spec §7). -/
inductive StnError where
  | ShapeMismatch
deriving DecidableEq

/-- A well-formed call: theta of shape `(N, 2, 3)` and a positive output size
`(N, C, H, W)` with the same batch count. -/
def validGridArgs (thetaDims outSize : List ℕ) : Prop :=
  match thetaDims, outSize with
  | [n, r, c], [n', ch, h, w] =>
      r = 2 ∧ c = 3 ∧ n = n' ∧ 0 < n' ∧ 0 < ch ∧ 0 < h ∧ 0 < w
  | _, _ => False

/-- Modelled from the spec (§4.1, §7): the fail-fast shape check of the grid
generator. A valid call yields the grid's shape `(N, H, W, 2)`; anything else
is rejected with `ShapeMismatch`, never reshaped or truncated. -/
def affineGridCheck (thetaDims outSize : List ℕ) :
    Except StnError (List ℕ) :=
  match thetaDims, outSize with
  | [n, r, c], [n', ch, h, w] =>
      if r = 2 ∧ c = 3 ∧ n = n' ∧ 0 < n' ∧ 0 < ch ∧ 0 < h ∧ 0 < w then
        Except.ok [n', h, w, 2]
      else
        Except.error StnError.ShapeMismatch
  | _, _ => Except.error StnError.ShapeMismatch

/-! ## Network layers (source: `Net.__init__`) -/

/-- `nn.Linear` with bias: affine map `v ↦ W v + b`. -/
def linear {m n : ℕ} (weight : Fin m → Fin n → α) (bias : Fin m → α)
    (v : Fin n → α) : Fin m → α :=
  fun k => (∑ j, weight k j * v j) + bias k

/-- `nn.Linear` with `bias=False` (the `fc_out` layer): `v ↦ W v`. -/
def linearNB {m n : ℕ} (weight : Fin m → Fin n → α) (v : Fin n → α) :
    Fin m → α :=
  fun k => ∑ j, weight k j * v j

/-- `nn.ReLU` applied elementwise to a vector. -/
def reluVec {n : ℕ} (v : Fin n → α) : Fin n → α :=
  fun k => max (v k) 0

/-- `nn.ReLU` applied elementwise to an image tensor. -/
def relu4 {N C H W : ℕ} (x : Fin N → Fin C → Fin H → Fin W → α) :
    Fin N → Fin C → Fin H → Fin W → α :=
  fun b c i j => max (x b c i j) 0

/-- Spatial size after `nn.Conv2d` along one axis:
`(n + 2*pad - k) / stride + 1`. -/
def convOut (n pad k stride : ℕ) : ℕ :=
  (n + 2 * pad - k) / stride + 1

/-- `nn.Conv2d` with square kernel `k`, stride `s` and zero padding `p`
(cross-correlation, as in the framework). -/
def conv2d {N Cin H W Cout : ℕ} (k s p : ℕ)
    (weight : Fin Cout → Fin Cin → Fin k → Fin k → α) (bias : Fin Cout → α)
    (x : Fin N → Fin Cin → Fin H → Fin W → α)
    (b : Fin N) (co : Fin Cout) (i : Fin (convOut H p k s))
    (j : Fin (convOut W p k s)) : α :=
  bias co + ∑ ci : Fin Cin, ∑ ki : Fin k, ∑ kj : Fin k,
    weight co ci ki kj *
      padGet x b ci ((i : ℤ) * s - p + ki) ((j : ℤ) * s - p + kj)

/-- `nn.MaxPool2d(kernel_size=2, stride=2)`: each output pixel is the maximum
of a disjoint `2 × 2` window; both spatial sizes halve. -/
def maxPool2 {N C H W : ℕ} (x : Fin N → Fin C → Fin H → Fin W → α)
    (b : Fin N) (c : Fin C) (i : Fin (H / 2)) (j : Fin (W / 2)) : α :=
  max
    (max (x b c ⟨2 * (i : ℕ), by omega⟩ ⟨2 * (j : ℕ), by omega⟩)
         (x b c ⟨2 * (i : ℕ), by omega⟩ ⟨2 * (j : ℕ) + 1, by omega⟩))
    (max (x b c ⟨2 * (i : ℕ) + 1, by omega⟩ ⟨2 * (j : ℕ), by omega⟩)
         (x b c ⟨2 * (i : ℕ) + 1, by omega⟩ ⟨2 * (j : ℕ) + 1, by omega⟩))

/-- `nn.Dropout2d` on an image tensor: each `(sample, channel)` plane is
multiplied by a mask factor (`0` for dropped planes, `1/(1-p)` for kept ones;
the factors are left abstract since they are framework-random). -/
def dropout2d {N C H W : ℕ} (m : Fin N → Fin C → α)
    (x : Fin N → Fin C → Fin H → Fin W → α) :
    Fin N → Fin C → Fin H → Fin W → α :=
  fun b c i j => m b c * x b c i j

/-- Dropout on a feature vector (the `nn.Dropout2d` inside `fc1`), one mask
factor per `(sample, feature)`. -/
def dropoutVec {n : ℕ} (m : Fin n → α) (v : Fin n → α) : Fin n → α :=
  fun k => m k * v k

/-- Row-major flattening of one sample, the per-sample effect of
`xs.view(-1, C*H*W)` on a contiguous `(N, C, H, W)` tensor. -/
def flatten3 {C H W : ℕ} (x : Fin C → Fin H → Fin W → α)
    (f : Fin (C * (H * W))) : α :=
  x ⟨(f : ℕ) / (H * W), by
      rcases Nat.eq_zero_or_pos (H * W) with h | h
      · exact absurd f.isLt (by simp [h])
      · exact (Nat.div_lt_iff_lt_mul h).2 (by
          have := f.isLt
          omega)⟩
    ⟨(f : ℕ) % (H * W) / W, by
      rcases Nat.eq_zero_or_pos (H * W) with h | h
      · exact absurd f.isLt (by simp [h])
      · have hW : 0 < W := by
          rcases Nat.eq_zero_or_pos W with hw | hw
          · subst hw
            simp at h
          · exact hw
        exact (Nat.div_lt_iff_lt_mul hW).2 (by
          have := Nat.mod_lt (f : ℕ) h
          omega)⟩
    ⟨(f : ℕ) % (H * W) % W, by
      rcases Nat.eq_zero_or_pos W with hw | hw
      · exact absurd f.isLt (by simp [hw])
      · exact Nat.mod_lt _ hw⟩

/-- `self.fc_loc` first layer weight is framework-random; the whole stack is
`Linear(192, 32) → ReLU → Linear(32, 6)`. -/
def fcLocStack (w1 : Fin 32 → Fin 192 → α) (b1 : Fin 32 → α)
    (w2 : Fin 6 → Fin 32 → α) (b2 : Fin 6 → α)
    (xs : Fin 192 → α) : Fin 6 → α :=
  linear w2 b2 (reluVec (linear w1 b1 xs))

/-- The last `fc_loc` layer's weight right after `Net.__init__`:
`self.fc_loc[2].weight.data.fill_(0)`. -/
def fcLocWeight2 : Fin 6 → Fin 32 → α :=
  fun _ _ => 0

/-- The last `fc_loc` layer's bias right after `Net.__init__`:
`self.fc_loc[2].bias.data = torch.FloatTensor([1, 0, 0, 0, 1, 0])`. -/
def fcLocBias2 : Fin 6 → α :=
  ![1, 0, 0, 0, 1, 0]

/-- `self.fc_loc` at construction time: the first layer's parameters are left
abstract (they are framework-random), the second layer's parameters are the
initialized ones. -/
def fcLoc (w1 : Fin 32 → Fin 192 → α) (b1 : Fin 32 → α)
    (xs : Fin 192 → α) : Fin 6 → α :=
  fcLocStack w1 b1 fcLocWeight2 fcLocBias2 xs

/-- `theta.view(-1, 2, 3)`: reshape the 6-vector into a `2 × 3` matrix in
row-major order. -/
def thetaView (t : Fin 6 → α) : Matrix (Fin 2) (Fin 3) α :=
  Matrix.of fun r c => t ⟨(r : ℕ) * 3 + (c : ℕ), by omega⟩

/-! ## The full model (source: `Net.localization`, `Net.stn`, `Net.forward`) -/

/-- `self.localization`: `Conv2d(3, 8, k=7, s=1, p=3) → MaxPool2d(2, 2) →
ReLU → Conv2d(8, 12, k=5, s=2, p=2) → MaxPool2d(2, 2) → ReLU`. -/
def localization {N H W : ℕ}
    (w1 : Fin 8 → Fin 3 → Fin 7 → Fin 7 → α) (b1 : Fin 8 → α)
    (w2 : Fin 12 → Fin 8 → Fin 5 → Fin 5 → α) (b2 : Fin 12 → α)
    (x : Fin N → Fin 3 → Fin H → Fin W → α) :
    Fin N → Fin 12 → Fin (convOut (convOut H 3 7 1 / 2) 2 5 2 / 2) →
      Fin (convOut (convOut W 3 7 1 / 2) 2 5 2 / 2) → α :=
  relu4 (maxPool2 (conv2d 5 2 2 w2 b2
    (relu4 (maxPool2 (conv2d 7 1 3 w1 b1 x)))))

/-- `Net.stn` for the reference `(N, 3, 32, 32)` configuration: localization
features, flattened by `xs.view(-1, 192)`, regressed to `theta`,
`theta.view(-1, 2, 3)`, then `F.affine_grid` on `x.size()` and
`F.grid_sample` on the input. The `fc_loc` parameters are passed in. -/
def stn {N : ℕ}
    (lw1 : Fin 8 → Fin 3 → Fin 7 → Fin 7 → α) (lb1 : Fin 8 → α)
    (lw2 : Fin 12 → Fin 8 → Fin 5 → Fin 5 → α) (lb2 : Fin 12 → α)
    (fw1 : Fin 32 → Fin 192 → α) (fb1 : Fin 32 → α)
    (fw2 : Fin 6 → Fin 32 → α) (fb2 : Fin 6 → α)
    (x : Fin N → Fin 3 → Fin 32 → Fin 32 → α) :
    Fin N → Fin 3 → Fin 32 → Fin 32 → α :=
  let xs := localization lw1 lb1 lw2 lb2 x
  let theta : Fin N → Matrix (Fin 2) (Fin 3) α :=
    fun b => thetaView (fcLocStack fw1 fb1 fw2 fb2 (flatten3 (xs b)))
  gridSample x (affineGrid theta 32 32)

/-- `F.log_softmax(x, dim=1)` on one sample's class scores:
`log_softmax(v)ᵢ = vᵢ - log Σⱼ exp vⱼ`. -/
noncomputable def logSoftmax {n : ℕ} (v : Fin n → ℝ) : Fin n → ℝ :=
  fun i => v i - Real.log (∑ j, Real.exp (v j))

/-- `Net.forward` at construction time (the `fc_loc` second layer holds its
initialization values; every other parameter and both dropout masks are left
abstract): `stn → conv1 → conv2 → x.view(-1, 2048) → fc1 → fc_out →
F.log_softmax(·, dim=1)`. -/
noncomputable def netForward {N : ℕ}
    (lw1 : Fin 8 → Fin 3 → Fin 7 → Fin 7 → ℝ) (lb1 : Fin 8 → ℝ)
    (lw2 : Fin 12 → Fin 8 → Fin 5 → Fin 5 → ℝ) (lb2 : Fin 12 → ℝ)
    (fw1 : Fin 32 → Fin 192 → ℝ) (fb1 : Fin 32 → ℝ)
    (c1w : Fin 16 → Fin 3 → Fin 5 → Fin 5 → ℝ) (c1b : Fin 16 → ℝ)
    (c2w : Fin 32 → Fin 16 → Fin 5 → Fin 5 → ℝ) (c2b : Fin 32 → ℝ)
    (m2 : Fin N → Fin 32 → ℝ)
    (f1w : Fin 50 → Fin 2048 → ℝ) (f1b : Fin 50 → ℝ)
    (m1 : Fin N → Fin 50 → ℝ)
    (fow : Fin 10 → Fin 50 → ℝ)
    (x : Fin N → Fin 3 → Fin 32 → Fin 32 → ℝ) : Fin N → Fin 10 → ℝ :=
  let t0 := stn lw1 lb1 lw2 lb2 fw1 fb1 fcLocWeight2 fcLocBias2 x
  let t1 := relu4 (maxPool2 (conv2d 5 1 2 c1w c1b t0))
  let t2 := relu4 (dropout2d m2 (maxPool2 (conv2d 5 1 2 c2w c2b t1)))
  fun b =>
    logSoftmax (linearNB fow
      (reluVec (dropoutVec (m1 b) (linear f1w f1b (flatten3 (t2 b))))))

/-! ## Shape pipeline (dimension bookkeeping of the same layers) -/

/-- `view(-1, cols)`: the inferred leading dimension, defined exactly when
`cols` divides the element count (otherwise the reshape fails). -/
def viewRows (numel cols : ℕ) : Option ℕ :=
  if cols ∣ numel then some (numel / cols) else none

/-- `(C, H, W)` after the localization stack (shape level). -/
def locDims (chw : ℕ × ℕ × ℕ) : ℕ × ℕ × ℕ :=
  let h1 := convOut chw.2.1 3 7 1 / 2
  let w1 := convOut chw.2.2 3 7 1 / 2
  (12, convOut h1 2 5 2 / 2, convOut w1 2 5 2 / 2)

/-- Output shape of `Net.forward` (shape level): the stn stage preserves the
input size (the grid is built from `x.size()`), then `conv1`, `conv2`, the
`x.view(-1, 2048)` reshape with its inferred batch dimension, `fc1`,
`fc_out`, and the shape-preserving `log_softmax`. -/
def netOutDims (N _C H W : ℕ) : Option (ℕ × ℕ) :=
  let h1 := convOut H 2 5 1 / 2
  let w1 := convOut W 2 5 1 / 2
  let h2 := convOut h1 2 5 1 / 2
  let w2 := convOut w1 2 5 1 / 2
  match viewRows (N * (32 * (h2 * w2))) 2048 with
  | some rows => some (rows, 10)
  | none => none

/-! ## Concrete tensors for the border-policy analysis -/

/-- A concrete `(1, 1, 1, 2)` source image holding the row `[4, 8]`. -/
def exImg : Fin 1 → Fin 1 → Fin 1 → Fin 2 → ℚ :=
  fun _ _ _ j => ![4, 8] j

/-- A concrete pure-translation theta: shift by `1/2` in normalized `x`. -/
def exTheta : Matrix (Fin 2) (Fin 3) ℚ :=
  !![1, 0, 1/2; 0, 1, 0]

/-- A concrete pure-translation theta: shift by `3` in normalized `x`. -/
def exThetaFar : Matrix (Fin 2) (Fin 3) ℚ :=
  !![1, 0, 3; 0, 1, 0]

end STN

namespace STN

variable {α : Type} [LinearOrderedField α] [FloorRing α]

/-! ## Coordinate lemmas -/

/-- Rescaling the normalized coordinate of pixel `j` back to pixel space
returns `j` itself (for every axis length, including the degenerate `size = 1`
axis where the normalized coordinate is `-1`). -/
theorem pixCoord_normCoord {j size : ℕ} (hj : j < size) :
    pixCoord (normCoord j size : α) size = j := by
  rcases Nat.lt_or_ge size 2 with h2 | h2
  · interval_cases size
    · exact absurd hj (by omega)
    · have hj0 : j = 0 := by omega
      subst hj0
      norm_num [pixCoord, normCoord]
  · have hne : ((size : α) - 1) ≠ 0 := by
      have : (2 : α) ≤ (size : α) := by exact_mod_cast Nat.cast_le.mpr h2
      intro h
      nlinarith
    unfold pixCoord normCoord
    field_simp
    ring

/-- Pointwise expansion of the grid generator: each grid entry is the affine
image of the pixel's homogeneous normalized coordinate. -/
theorem affineGrid_apply {N : ℕ} (theta : Fin N → Matrix (Fin 2) (Fin 3) α)
    (H W : ℕ) (b : Fin N) (i : Fin H) (j : Fin W) (d : Fin 2) :
    affineGrid theta H W b i j d =
      theta b d 0 * normCoord (j : ℕ) W + theta b d 1 * normCoord (i : ℕ) H +
        theta b d 2 := by
  have hW : 0 < W := j.pos
  have hmod : ((i : ℕ) * W + (j : ℕ)) % W = (j : ℕ) := by
    rw [Nat.mul_comm, Nat.mul_add_mod, Nat.mod_eq_of_lt j.isLt]
  have hdiv : ((i : ℕ) * W + (j : ℕ)) / W = (i : ℕ) := by
    rw [Nat.mul_comm, Nat.mul_add_div hW, Nat.div_eq_of_lt j.isLt, Nat.add_zero]
  unfold affineGrid baseGrid
  rw [Fin.sum_univ_three]
  simp only [hmod, hdiv, Matrix.cons_val_zero, Matrix.cons_val_one,
    Matrix.head_cons, Matrix.cons_val_two, Matrix.tail_cons]
  ring

/-- The identity grid's `x` entry is the pixel's own normalized column. -/
theorem affineGrid_idTheta_x {N : ℕ} (H W : ℕ) (b : Fin N) (i : Fin H)
    (j : Fin W) :
    affineGrid (fun _ => (idTheta : Matrix (Fin 2) (Fin 3) α)) H W b i j 0 =
      normCoord (j : ℕ) W := by
  rw [affineGrid_apply]
  norm_num [idTheta, Matrix.cons_val_zero, Matrix.cons_val_one,
    Matrix.head_cons, Matrix.cons_val_two, Matrix.tail_cons]

/-- The identity grid's `y` entry is the pixel's own normalized row. -/
theorem affineGrid_idTheta_y {N : ℕ} (H W : ℕ) (b : Fin N) (i : Fin H)
    (j : Fin W) :
    affineGrid (fun _ => (idTheta : Matrix (Fin 2) (Fin 3) α)) H W b i j 1 =
      normCoord (i : ℕ) H := by
  rw [affineGrid_apply]
  norm_num [idTheta, Matrix.cons_val_zero, Matrix.cons_val_one,
    Matrix.head_cons, Matrix.cons_val_two, Matrix.tail_cons]

/-! ## Sampler lemmas -/

/-- Fetching at an in-range integer coordinate reads the pixel itself. -/
theorem padGet_inBounds {N C H W : ℕ} (x : Fin N → Fin C → Fin H → Fin W → α)
    (b : Fin N) (c : Fin C) (i : Fin H) (j : Fin W) :
    padGet x b c (i : ℤ) (j : ℤ) = x b c i j := by
  unfold padGet
  rw [dif_pos ⟨Int.natCast_nonneg _, by exact_mod_cast i.isLt⟩,
    dif_pos ⟨Int.natCast_nonneg _, by exact_mod_cast j.isLt⟩]
  simp

/-- A fetch whose integer coordinate lies outside the source bounds returns
exactly zero (the border policy). -/
theorem padGet_oob {N C H W : ℕ} (x : Fin N → Fin C → Fin H → Fin W → α)
    (b : Fin N) (c : Fin C) (iy ix : ℤ)
    (h : iy < 0 ∨ (H : ℤ) ≤ iy ∨ ix < 0 ∨ (W : ℤ) ≤ ix) :
    padGet x b c iy ix = 0 := by
  unfold padGet
  rcases h with h | h | h | h
  · rw [dif_neg (by omega)]
  · rw [dif_neg (by omega)]
  · by_cases hy : 0 ≤ iy ∧ iy < (H : ℤ)
    · rw [dif_pos hy, dif_neg (by omega)]
    · rw [dif_neg hy]
  · by_cases hy : 0 ≤ iy ∧ iy < (H : ℤ)
    · rw [dif_pos hy, dif_neg (by omega)]
    · rw [dif_neg hy]

/-- Sampling an image along the identity grid reproduces it exactly. -/
theorem gridSample_identity {N C H W : ℕ}
    (x : Fin N → Fin C → Fin H → Fin W → α) (b : Fin N) (c : Fin C)
    (i : Fin H) (j : Fin W) :
    gridSample x (affineGrid (fun _ => idTheta) H W) b c i j = x b c i j := by
  unfold gridSample
  rw [affineGrid_idTheta_x, affineGrid_idTheta_y]
  rw [pixCoord_normCoord j.isLt, pixCoord_normCoord i.isLt]
  simp only [Int.floor_natCast, Int.cast_natCast, sub_self, mul_zero, zero_mul,
    mul_one, one_mul, add_zero, zero_add, sub_zero]
  rw [padGet_inBounds]

/-- A coordinate with a nonzero fractional part has its ceiling one above its
floor. -/
theorem ceil_of_fract_ne_zero {a : α} (h : Int.fract a ≠ 0) :
    (⌈a⌉ : ℤ) = ⌊a⌋ + 1 := by
  rcases Int.fract_eq_zero_or_add_one_sub_ceil a with h0 | h1
  · exact absurd h0 h
  · have hc : (⌈a⌉ : α) = (⌊a⌋ : α) + 1 := by
      have hf : Int.fract a = a - ⌊a⌋ := (Int.self_sub_floor a).symm
      rw [h1] at hf
      linarith
    exact_mod_cast hc

/-- The floor/successor form of the four-neighbour sum (the sampler's
computation) coincides with the floor/ceiling, fractional-distance form (the
spec's wording), for every real pixel coordinate — including exact integer
coordinates, where the ceiling collapses onto the floor but its weight is
zero. -/
theorem bilinear_floor_succ_eq_spec {N C H W : ℕ}
    (x : Fin N → Fin C → Fin H → Fin W → α) (b : Fin N) (c : Fin C)
    (px py : α) :
    (1 - (px - (⌊px⌋ : α))) * (1 - (py - (⌊py⌋ : α))) *
        padGet x b c ⌊py⌋ ⌊px⌋ +
      (px - (⌊px⌋ : α)) * (1 - (py - (⌊py⌋ : α))) *
        padGet x b c ⌊py⌋ (⌊px⌋ + 1) +
      (1 - (px - (⌊px⌋ : α))) * (py - (⌊py⌋ : α)) *
        padGet x b c (⌊py⌋ + 1) ⌊px⌋ +
      (px - (⌊px⌋ : α)) * (py - (⌊py⌋ : α)) *
        padGet x b c (⌊py⌋ + 1) (⌊px⌋ + 1) =
    bilinearSpec x b c px py := by
  unfold bilinearSpec
  rw [show px - (⌊px⌋ : α) = Int.fract px from Int.self_sub_floor px,
    show py - (⌊py⌋ : α) = Int.fract py from Int.self_sub_floor py]
  by_cases hx : Int.fract px = 0 <;> by_cases hy : Int.fract py = 0
  · rw [hx, hy]
    ring
  · rw [hx, ceil_of_fract_ne_zero hy]
    ring
  · rw [hy, ceil_of_fract_ne_zero hx]
    ring
  · rw [ceil_of_fract_ne_zero hx, ceil_of_fract_ne_zero hy]

/-- The sampler is exactly the spec's bilinear interpolation at the rescaled
pixel coordinate of each grid entry. -/
theorem gridSample_eq_bilinearSpec {N C Hin Win Hout Wout : ℕ}
    (x : Fin N → Fin C → Fin Hin → Fin Win → α)
    (grid : Fin N → Fin Hout → Fin Wout → Fin 2 → α)
    (b : Fin N) (c : Fin C) (i : Fin Hout) (j : Fin Wout) :
    gridSample x grid b c i j =
      bilinearSpec x b c (pixCoord (grid b i j 0) Win)
        (pixCoord (grid b i j 1) Hin) :=
  bilinear_floor_succ_eq_spec x b c _ _

/-- Both column terms of the bilinear sum vanish when the `x` pixel
coordinate is at least one pixel outside the source width. -/
theorem bilinear_col_kill {N C H W : ℕ}
    (x : Fin N → Fin C → Fin H → Fin W → α) (b : Fin N) (c : Fin C)
    (px : α) (h : px ≤ -1 ∨ (W : α) ≤ px) (iy : ℤ) :
    (1 - (px - (⌊px⌋ : α))) * padGet x b c iy ⌊px⌋ = 0 ∧
    (px - (⌊px⌋ : α)) * padGet x b c iy (⌊px⌋ + 1) = 0 := by
  rcases h with h | h
  · have hfl : ⌊px⌋ ≤ -1 := by
      have := Int.floor_mono h
      rwa [show ((-1 : α)) = ((-1 : ℤ) : α) by norm_num, Int.floor_intCast]
        at this
    constructor
    · rw [padGet_oob x b c iy ⌊px⌋ (by omega), mul_zero]
    · rcases lt_or_eq_of_le hfl with hlt | heq
      · rw [padGet_oob x b c iy (⌊px⌋ + 1) (by omega), mul_zero]
      · have hge : (-1 : α) ≤ px := by
          have := Int.floor_le px
          rw [heq] at this
          exact_mod_cast this
        have : px - (⌊px⌋ : α) = 0 := by
          rw [heq]
          push_cast
          linarith
        rw [this, zero_mul]
  · have hfl : (W : ℤ) ≤ ⌊px⌋ := Int.le_floor.2 (by exact_mod_cast h)
    constructor
    · rw [padGet_oob x b c iy ⌊px⌋ (by omega), mul_zero]
    · rw [padGet_oob x b c iy (⌊px⌋ + 1) (by omega), mul_zero]

/-- Both row terms of the bilinear sum vanish when the `y` pixel coordinate
is at least one pixel outside the source height. -/
theorem bilinear_row_kill {N C H W : ℕ}
    (x : Fin N → Fin C → Fin H → Fin W → α) (b : Fin N) (c : Fin C)
    (py : α) (h : py ≤ -1 ∨ (H : α) ≤ py) (ix : ℤ) :
    (1 - (py - (⌊py⌋ : α))) * padGet x b c ⌊py⌋ ix = 0 ∧
    (py - (⌊py⌋ : α)) * padGet x b c (⌊py⌋ + 1) ix = 0 := by
  rcases h with h | h
  · have hfl : ⌊py⌋ ≤ -1 := by
      have := Int.floor_mono h
      rwa [show ((-1 : α)) = ((-1 : ℤ) : α) by norm_num, Int.floor_intCast]
        at this
    constructor
    · rw [padGet_oob x b c ⌊py⌋ ix (by omega), mul_zero]
    · rcases lt_or_eq_of_le hfl with hlt | heq
      · rw [padGet_oob x b c (⌊py⌋ + 1) ix (by omega), mul_zero]
      · have hge : (-1 : α) ≤ py := by
          have := Int.floor_le py
          rw [heq] at this
          exact_mod_cast this
        have : py - (⌊py⌋ : α) = 0 := by
          rw [heq]
          push_cast
          linarith
        rw [this, zero_mul]
  · have hfl : (H : ℤ) ≤ ⌊py⌋ := Int.le_floor.2 (by exact_mod_cast h)
    constructor
    · rw [padGet_oob x b c ⌊py⌋ ix (by omega), mul_zero]
    · rw [padGet_oob x b c (⌊py⌋ + 1) ix (by omega), mul_zero]

/-- The sampler returns exactly zero wherever the rescaled source coordinate
is at least one full pixel outside the source bounds in either axis. -/
theorem gridSample_eq_zero_of_far_out {N C Hin Win Hout Wout : ℕ}
    (x : Fin N → Fin C → Fin Hin → Fin Win → α)
    (grid : Fin N → Fin Hout → Fin Wout → Fin 2 → α)
    (b : Fin N) (c : Fin C) (i : Fin Hout) (j : Fin Wout)
    (h : pixCoord (grid b i j 0) Win ≤ -1 ∨
         (Win : α) ≤ pixCoord (grid b i j 0) Win ∨
         pixCoord (grid b i j 1) Hin ≤ -1 ∨
         (Hin : α) ≤ pixCoord (grid b i j 1) Hin) :
    gridSample x grid b c i j = 0 := by
  unfold gridSample
  set px : α := pixCoord (grid b i j 0) Win with hpx
  set py : α := pixCoord (grid b i j 1) Hin with hpy
  have h' : (px ≤ -1 ∨ (Win : α) ≤ px) ∨ (py ≤ -1 ∨ (Hin : α) ≤ py) := by
    tauto
  rcases h' with hcol | hrow
  · obtain ⟨h1, h2⟩ := bilinear_col_kill x b c px hcol ⌊py⌋
    obtain ⟨h3, h4⟩ := bilinear_col_kill x b c px hcol (⌊py⌋ + 1)
    linear_combination (1 - (py - (⌊py⌋ : α))) * h1 +
      (1 - (py - (⌊py⌋ : α))) * h2 + (py - (⌊py⌋ : α)) * h3 +
      (py - (⌊py⌋ : α)) * h4
  · obtain ⟨h1, h2⟩ := bilinear_row_kill x b c py hrow ⌊px⌋
    obtain ⟨h3, h4⟩ := bilinear_row_kill x b c py hrow (⌊px⌋ + 1)
    linear_combination (1 - (px - (⌊px⌋ : α))) * h1 +
      (px - (⌊px⌋ : α)) * h3 + (1 - (px - (⌊px⌋ : α))) * h2 +
      (px - (⌊px⌋ : α)) * h4

/-! ## Regressor lemmas -/

/-- With an all-zero last-layer weight, the regressor output is the bias,
whatever the features. -/
theorem fcLoc_eq_bias (w1 : Fin 32 → Fin 192 → α) (b1 : Fin 32 → α)
    (xs : Fin 192 → α) :
    fcLoc w1 b1 xs = fcLocBias2 := by
  funext k
  simp [fcLoc, fcLocStack, linear, fcLocWeight2]

/-- The initialization bias, reshaped to `2 × 3`, is the identity affine
matrix. -/
theorem thetaView_bias_eq_idTheta :
    thetaView (fcLocBias2 : Fin 6 → α) = idTheta := by
  ext r c
  fin_cases r <;> fin_cases c <;> rfl

/-- At construction, the regressor's reshaped output is the identity affine
matrix on every input. -/
theorem thetaView_fcLoc (w1 : Fin 32 → Fin 192 → α) (b1 : Fin 32 → α)
    (xs : Fin 192 → α) :
    thetaView (fcLoc w1 b1 xs) = idTheta := by
  rw [fcLoc_eq_bias, thetaView_bias_eq_idTheta]

/-! ## Softmax lemma -/

/-- The exponentials of `log_softmax` sum to `1` on any nonempty score
vector. -/
theorem sum_exp_logSoftmax {n : ℕ} (hn : 0 < n) (v : Fin n → ℝ) :
    ∑ i, Real.exp (logSoftmax v i) = 1 := by
  have hne : (Finset.univ : Finset (Fin n)).Nonempty := by
    have : Nonempty (Fin n) := Fin.pos_iff_nonempty.mp hn
    exact Finset.univ_nonempty
  have hpos : 0 < ∑ j, Real.exp (v j) :=
    Finset.sum_pos (fun i _ => Real.exp_pos _) hne
  unfold logSoftmax
  have hterm : ∀ i : Fin n,
      Real.exp (v i - Real.log (∑ j, Real.exp (v j))) =
        Real.exp (v i) / (∑ j, Real.exp (v j)) := by
    intro i
    rw [Real.exp_sub, Real.exp_log hpos]
  simp_rw [hterm]
  rw [← Finset.sum_div, div_self (ne_of_gt hpos)]

end STN

namespace STN

/-! ## Claim theorems -/

/-- C1: after construction of the model and before any training step, the
affine regressor's final linear layer has an all-zero weight matrix and the
bias `[1,0,0,0,1,0]`, so that for every input image the predicted theta,
reshaped to `(N, 2, 3)`, equals the identity affine matrix
`[[1,0,0],[0,1,0]]`. -/
theorem regressor_initializes_to_identity :
    (∀ (k : Fin 6) (j : Fin 32), (fcLocWeight2 : Fin 6 → Fin 32 → ℚ) k j = 0)
    ∧ (fcLocBias2 : Fin 6 → ℚ) = ![1, 0, 0, 0, 1, 0]
    ∧ ∀ (lw1 : Fin 8 → Fin 3 → Fin 7 → Fin 7 → ℚ) (lb1 : Fin 8 → ℚ)
        (lw2 : Fin 12 → Fin 8 → Fin 5 → Fin 5 → ℚ) (lb2 : Fin 12 → ℚ)
        (fw1 : Fin 32 → Fin 192 → ℚ) (fb1 : Fin 32 → ℚ) (N : ℕ)
        (x : Fin N → Fin 3 → Fin 32 → Fin 32 → ℚ) (b : Fin N),
        thetaView (fcLoc fw1 fb1
            (flatten3 (localization lw1 lb1 lw2 lb2 x b))) =
          !![1, 0, 0; 0, 1, 0] := by
  refine ⟨fun _ _ => rfl, rfl, fun lw1 lb1 lw2 lb2 fw1 fb1 N x b => ?_⟩
  exact thetaView_fcLoc fw1 fb1 _

/-- C2: with the identity theta `[[1,0,0],[0,1,0]]` and output size equal to
the input size, the grid generator followed by the bilinear sampler
reproduces every input image exactly (here over exact arithmetic, so with no
tolerance at all). -/
theorem identity_theta_reproduces_input {N C H W : ℕ}
    (x : Fin N → Fin C → Fin H → Fin W → ℚ) (b : Fin N) (c : Fin C)
    (i : Fin H) (j : Fin W) :
    gridSample x (affineGrid (fun _ => !![1, 0, 0; 0, 1, 0]) H W) b c i j =
      x b c i j :=
  gridSample_identity x b c i j

/-- C3: the grid generator sends every output pixel `(i, j)` to
`theta · (x, y, 1)`, where `(x, y)` is the pixel's normalized coordinate
(row `i ↦ y`, column `j ↦ x`, corners at ±1). -/
theorem grid_generator_is_affine_map {N : ℕ} {α : Type}
    [LinearOrderedField α] [FloorRing α]
    (theta : Fin N → Matrix (Fin 2) (Fin 3) α) (H W : ℕ)
    (b : Fin N) (i : Fin H) (j : Fin W) (d : Fin 2) :
    affineGrid theta H W b i j d =
      (theta b).mulVec ![normCoord (j : ℕ) W, normCoord (i : ℕ) H, 1] d := by
  rw [affineGrid_apply]
  simp [Matrix.mulVec, Matrix.dotProduct, Fin.sum_univ_three,
    Matrix.cons_val_zero, Matrix.cons_val_one, Matrix.head_cons,
    Matrix.cons_val_two, Matrix.tail_cons]

/-- C4: each output value of the bilinear sampler equals the bilinear
interpolation of the source at the rescaled pixel coordinate
`px = (x+1)/2·(W_in-1)`, `py = (y+1)/2·(H_in-1)`: the sum over the four
integer-pixel neighbours (floor/ceil in each axis) of the neighbour's value
weighted by its area-weighting coefficient, channel-wise. -/
theorem sampler_is_bilinear_interpolation {N C Hin Win Hout Wout : ℕ}
    {α : Type} [LinearOrderedField α] [FloorRing α]
    (x : Fin N → Fin C → Fin Hin → Fin Win → α)
    (grid : Fin N → Fin Hout → Fin Wout → Fin 2 → α)
    (b : Fin N) (c : Fin C) (i : Fin Hout) (j : Fin Wout) :
    gridSample x grid b c i j =
      bilinearSpec x b c ((grid b i j 0 + 1) / 2 * ((Win : α) - 1))
        ((grid b i j 1 + 1) / 2 * ((Hin : α) - 1)) :=
  gridSample_eq_bilinearSpec x grid b c i j

/-- C5 fails as stated: for the pure translation `[[1,0,1/2],[0,1,0]]` on a
`1 × 2` image `[4, 8]`, the output pixel `j = 1` has grid coordinate
`3/2 ∉ [-1, 1]`, yet the sampler returns `6 = (3/4)·8`, a linearly
attenuated edge value — not zero (and not a duplicated edge pixel either). -/
theorem border_sample_outside_not_zero :
    exTheta = !![1, 0, 1/2; 0, 1, 0] ∧
    affineGrid (fun _ : Fin 1 => exTheta) 1 2 0 0 1 0 = 3/2 ∧
    (3 : ℚ)/2 ∉ Set.Icc (-1 : ℚ) 1 ∧
    gridSample exImg (affineGrid (fun _ => exTheta) 1 2) 0 0 0 1 = 6 ∧
    (6 : ℚ) ≠ 0 := by
  have hgx : affineGrid (fun _ : Fin 1 => exTheta) 1 2 0 0 1 0 = 3/2 := by
    rw [affineGrid_apply]
    norm_num [exTheta, normCoord, Matrix.cons_val_zero, Matrix.cons_val_one,
      Matrix.head_cons, Matrix.cons_val_two, Matrix.tail_cons]
  have hgy : affineGrid (fun _ : Fin 1 => exTheta) 1 2 0 0 1 1 = -1 := by
    rw [affineGrid_apply]
    norm_num [exTheta, normCoord, Matrix.cons_val_zero, Matrix.cons_val_one,
      Matrix.head_cons, Matrix.cons_val_two, Matrix.tail_cons]
  refine ⟨rfl, hgx, by norm_num [Set.mem_Icc], ?_, by norm_num⟩
  rw [gridSample_eq_bilinearSpec, hgx, hgy]
  have hpx : pixCoord (3/2 : ℚ) 2 = 5/4 := by norm_num [pixCoord]
  have hpy : pixCoord (-1 : ℚ) 1 = 0 := by norm_num [pixCoord]
  rw [hpx, hpy]
  have h1 : (⌊(5/4 : ℚ)⌋ : ℤ) = 1 := by norm_num [Int.floor_eq_iff]
  have h2 : (⌈(5/4 : ℚ)⌉ : ℤ) = 2 := by norm_num [Int.ceil_eq_iff]
  have h3 : (⌊(0 : ℚ)⌋ : ℤ) = 0 := by norm_num
  have h4 : (⌈(0 : ℚ)⌉ : ℤ) = 0 := by norm_num
  have h5 : Int.fract (5/4 : ℚ) = 1/4 := by
    rw [← Int.self_sub_floor, h1]
    norm_num
  have h6 : Int.fract (0 : ℚ) = 0 := by norm_num
  have hp1 : padGet exImg 0 0 0 1 = 8 := by
    unfold padGet
    rw [dif_pos (by norm_num), dif_pos (by norm_num)]
    rfl
  have hp2 : padGet exImg 0 0 0 2 = 0 := by
    unfold padGet
    rw [dif_pos (by norm_num), dif_neg (by norm_num)]
  unfold bilinearSpec
  rw [h1, h2, h3, h4, h5, h6, hp1, hp2]
  norm_num

/-- C5 (amended): every out-of-bounds neighbour fetch contributes exactly
zero, and an output location yields zero whenever its rescaled source
coordinate lies at least one full pixel outside the source bounds
(`px ≤ -1` or `px ≥ W_in`, or likewise for `py`); a location less than one
pixel outside instead yields a linearly attenuated edge value, never a
duplicated edge pixel. -/
theorem border_policy_zero_padding {N C Hin Win Hout Wout : ℕ}
    (x : Fin N → Fin C → Fin Hin → Fin Win → ℚ)
    (grid : Fin N → Fin Hout → Fin Wout → Fin 2 → ℚ)
    (b : Fin N) (c : Fin C) (i : Fin Hout) (j : Fin Wout) (iy ix : ℤ)
    (hoob : iy < 0 ∨ (Hin : ℤ) ≤ iy ∨ ix < 0 ∨ (Win : ℤ) ≤ ix)
    (hfar : pixCoord (grid b i j 0) Win ≤ -1 ∨
            (Win : ℚ) ≤ pixCoord (grid b i j 0) Win ∨
            pixCoord (grid b i j 1) Hin ≤ -1 ∨
            (Hin : ℚ) ≤ pixCoord (grid b i j 1) Hin) :
    padGet x b c iy ix = 0 ∧ gridSample x grid b c i j = 0 :=
  ⟨padGet_oob x b c iy ix hoob,
    gridSample_eq_zero_of_far_out x grid b c i j hfar⟩

/-- Witness for the amended C5: under the pure translation by `3` the output
pixel `j = 1` of the `[4, 8]` image maps fully outside and samples to zero,
and the direct fetch at column `2` is zero. -/
theorem border_policy_zero_padding_witness :
    padGet exImg 0 0 0 2 = 0 ∧
    gridSample exImg (affineGrid (fun _ => exThetaFar) 1 2) 0 0 0 1 = 0 := by
  have hgx : affineGrid (fun _ : Fin 1 => exThetaFar) 1 2 0 0 1 0 = 4 := by
    rw [affineGrid_apply]
    norm_num [exThetaFar, normCoord, Matrix.cons_val_zero, Matrix.cons_val_one,
      Matrix.head_cons, Matrix.cons_val_two, Matrix.tail_cons]
  exact border_policy_zero_padding exImg _ 0 0 0 1 0 2
    (by norm_num)
    (Or.inr (Or.inl (by
      rw [hgx]
      norm_num [pixCoord])))

/-- C7: a call whose theta shape is not `(N, 2, 3)` or whose output size has
a non-positive dimension is rejected at the grid generator / sampler
boundary with `ShapeMismatch` — the only intrinsic error — and a call is
accepted only with the exact declared shapes, producing the declared grid
shape `(N, H, W, 2)`: nothing is silently reshaped or truncated. -/
theorem grid_boundary_shape_check (td os : List ℕ) :
    (¬ validGridArgs td os →
      affineGridCheck td os = Except.error StnError.ShapeMismatch) ∧
    (∀ e, affineGridCheck td os = Except.error e →
      e = StnError.ShapeMismatch) ∧
    (∀ g, affineGridCheck td os = Except.ok g →
      ∃ n ch h w, td = [n, 2, 3] ∧ os = [n, ch, h, w] ∧
        0 < n ∧ 0 < ch ∧ 0 < h ∧ 0 < w ∧ g = [n, h, w, 2]) := by
  unfold validGridArgs affineGridCheck
  refine ⟨?_, ?_, ?_⟩
  · intro hv
    split
    · split_ifs with hc
      · exact absurd hc hv
      · rfl
    · rfl
  · intro e he
    cases e
    rfl
  · intro g hg
    revert hg
    split
    · split_ifs with hc
      · intro hg
        injection hg with h
        obtain ⟨h2, h3, hnn, hn, hch, hh, hw⟩ := hc
        subst h2
        subst h3
        subst hnn
        exact ⟨_, _, _, _, rfl, rfl, hn, hch, hh, hw, h.symm⟩
      · intro hg
        exact absurd hg (by simp)
    · intro hg
      exact absurd hg (by simp)

/-- C8: a batch of 5 images of shape `(5, 3, 32, 32)` through the full model
at initialization yields class scores of shape `(5, 10)` whose per-sample
exponentials sum to `1`, the terminal operation being log-of-softmax over
the class dimension. -/
theorem forward_logprobs_normalized
    (lw1 : Fin 8 → Fin 3 → Fin 7 → Fin 7 → ℝ) (lb1 : Fin 8 → ℝ)
    (lw2 : Fin 12 → Fin 8 → Fin 5 → Fin 5 → ℝ) (lb2 : Fin 12 → ℝ)
    (fw1 : Fin 32 → Fin 192 → ℝ) (fb1 : Fin 32 → ℝ)
    (c1w : Fin 16 → Fin 3 → Fin 5 → Fin 5 → ℝ) (c1b : Fin 16 → ℝ)
    (c2w : Fin 32 → Fin 16 → Fin 5 → Fin 5 → ℝ) (c2b : Fin 32 → ℝ)
    (m2 : Fin 5 → Fin 32 → ℝ)
    (f1w : Fin 50 → Fin 2048 → ℝ) (f1b : Fin 50 → ℝ)
    (m1 : Fin 5 → Fin 50 → ℝ)
    (fow : Fin 10 → Fin 50 → ℝ)
    (x : Fin 5 → Fin 3 → Fin 32 → Fin 32 → ℝ) (b : Fin 5) :
    netOutDims 5 3 32 32 = some (5, 10) ∧
    ∑ k : Fin 10, Real.exp
      (netForward lw1 lb1 lw2 lb2 fw1 fb1 c1w c1b c2w c2b m2 f1w f1b m1 fow
        x b k) = 1 := by
  constructor
  · rfl
  · unfold netForward
    exact sum_exp_logSoftmax (by norm_num) _

/-- C9: the grid generator and the bilinear sampler are pure, deterministic
functions of their value arguments: equal thetas, sizes, grids and images
give equal outputs (in this value-level embedding no in-place mutation is
even expressible; all operations return fresh tensors). -/
theorem core_ops_deterministic {N C Hin Win Hout Wout : ℕ}
    (θ₁ θ₂ : Fin N → Matrix (Fin 2) (Fin 3) ℚ)
    (x₁ x₂ : Fin N → Fin C → Fin Hin → Fin Win → ℚ)
    (g₁ g₂ : Fin N → Fin Hout → Fin Wout → Fin 2 → ℚ)
    (hθ : θ₁ = θ₂) (hx : x₁ = x₂) (hg : g₁ = g₂) :
    affineGrid θ₁ Hout Wout = affineGrid θ₂ Hout Wout ∧
    gridSample x₁ g₁ = gridSample x₂ g₂ := by
  subst hθ
  subst hx
  subst hg
  exact ⟨rfl, rfl⟩

/-- Witness for C9 at a concrete theta, image and grid. -/
theorem core_ops_deterministic_witness :
    affineGrid (fun _ : Fin 1 => exTheta) 1 2 =
      affineGrid (fun _ => exTheta) 1 2 ∧
    gridSample exImg (affineGrid (fun _ => exTheta) 1 2) =
      gridSample exImg (affineGrid (fun _ => exTheta) 1 2) :=
  core_ops_deterministic _ _ _ _ _ _ rfl rfl rfl

/-- C10: on the reference `(N, 3, 32, 32)` input the localization stack
outputs `(N, 12, 4, 4)`; its per-sample element count `12·4·4 = 192` equals
the hard-coded flatten size `32/4 · 32/4 · 3` (the regressor's first layer
input size), so `xs.view(-1, 192)` infers back exactly the batch dimension
`N` — its failure branch is unreachable under this precondition. -/
theorem localization_flatten_consistency (N : ℕ) :
    locDims (3, 32, 32) = (12, 4, 4) ∧
    12 * 4 * 4 = 32 / 4 * (32 / 4) * 3 ∧
    12 * 4 * 4 = 192 ∧
    viewRows (N * (12 * 4 * 4)) 192 = some N := by
  refine ⟨rfl, rfl, rfl, ?_⟩
  unfold viewRows
  rw [if_pos ⟨N, by ring⟩]
  congr 1
  omega

/-! ## Witnesses at concrete inputs -/

/-- Witness for C1 at concrete parameters and a concrete batch. -/
theorem regressor_initializes_to_identity_witness :
    thetaView (fcLoc (fun _ _ => (0 : ℚ)) (fun _ => 0)
        (flatten3 (localization (fun _ _ _ _ => 0) (fun _ => 0)
          (fun _ _ _ _ => 0) (fun _ => 0)
          (fun (_ : Fin 1) (_ : Fin 3) (_ : Fin 32) (_ : Fin 32) => (0 : ℚ))
          0))) =
      !![1, 0, 0; 0, 1, 0] :=
  regressor_initializes_to_identity.2.2 _ _ _ _ _ _ 1 _ 0

/-- Witness for C2 on the concrete `[4, 8]` image. -/
theorem identity_theta_reproduces_input_witness :
    gridSample exImg (affineGrid (fun _ => !![1, 0, 0; 0, 1, 0]) 1 2)
        0 0 0 1 = exImg 0 0 0 1 :=
  identity_theta_reproduces_input exImg 0 0 0 1

/-- Witness for C3 on the concrete translation theta. -/
theorem grid_generator_is_affine_map_witness :
    affineGrid (fun _ : Fin 1 => exTheta) 1 2 0 0 1 0 =
      exTheta.mulVec ![normCoord 1 2, normCoord 0 1, 1] 0 :=
  grid_generator_is_affine_map (fun _ => exTheta) 1 2 0 0 1 0

/-- Witness for C4 on the concrete `[4, 8]` image and translation grid. -/
theorem sampler_is_bilinear_interpolation_witness :
    gridSample exImg (affineGrid (fun _ => exTheta) 1 2) 0 0 0 1 =
      bilinearSpec exImg 0 0
        ((affineGrid (fun _ : Fin 1 => exTheta) 1 2 0 0 1 0 + 1) / 2 *
          ((2 : ℚ) - 1))
        ((affineGrid (fun _ : Fin 1 => exTheta) 1 2 0 0 1 1 + 1) / 2 *
          ((1 : ℚ) - 1)) :=
  sampler_is_bilinear_interpolation exImg _ 0 0 0 1

/-- Witness for C7: a wrongly shaped theta is rejected, the reference call is
accepted with the declared grid shape. -/
theorem grid_boundary_shape_check_witness :
    affineGridCheck [5, 3, 2] [5, 3, 32, 32] =
      Except.error StnError.ShapeMismatch ∧
    (∃ n ch h w, [5, 2, 3] = [n, 2, 3] ∧ [5, 3, 32, 32] = [n, ch, h, w] ∧
      0 < n ∧ 0 < ch ∧ 0 < h ∧ 0 < w ∧ [5, 32, 32, 2] = [n, h, w, 2]) :=
  ⟨(grid_boundary_shape_check [5, 3, 2] [5, 3, 32, 32]).1
      (by simp [validGridArgs]),
    (grid_boundary_shape_check [5, 2, 3] [5, 3, 32, 32]).2.2 [5, 32, 32, 2]
      rfl⟩

/-- Witness for C8 at all-zero parameters, masks and input. -/
theorem forward_logprobs_normalized_witness :
    netOutDims 5 3 32 32 = some (5, 10) ∧
    ∑ k : Fin 10, Real.exp
      (netForward (fun _ _ _ _ => 0) (fun _ => 0) (fun _ _ _ _ => 0)
        (fun _ => 0) (fun _ _ => 0) (fun _ => 0) (fun _ _ _ _ => 0)
        (fun _ => 0) (fun _ _ _ _ => 0) (fun _ => 0) (fun _ _ => 0)
        (fun _ _ => 0) (fun _ => 0) (fun _ _ => 0) (fun _ _ => 0)
        (fun _ _ _ _ => 0) (0 : Fin 5) k) = 1 :=
  forward_logprobs_normalized _ _ _ _ _ _ _ _ _ _ _ _ _ _ _ _ 0

/-- Witness for C10 at the batch size of the notebook's smoke test. -/
theorem localization_flatten_consistency_witness :
    locDims (3, 32, 32) = (12, 4, 4) ∧
    12 * 4 * 4 = 32 / 4 * (32 / 4) * 3 ∧
    12 * 4 * 4 = 192 ∧
    viewRows (5 * (12 * 4 * 4)) 192 = some 5 :=
  localization_flatten_consistency 5

end STN
